import Mathlib

/-!
Verification development for the `web_responders` package
(object-to-response transformation engine, notification ledger).

The Go source is shallowly embedded: reflective values are modelled by the
inductive `GoVal`, whose capability record `CapsF` carries the optional
interfaces the transformer probes for (`LazyLoader`, `ResponseObjectCreator`,
`ResponseValueCreator`, `fmt.Stringer`, `error`, `NilResponder`).  In Go these
capabilities are methods on the dynamic type; the model stores, for each value,
the result such a method would return (the `LazyLoad` and `ResponseValue`
methods receive the current options map in Go; the model stores the value the
method produces for the options in play).  Go panics are modelled as
`Except.error`.  Go maps are modelled as association lists with Go map
semantics (lookup of the unique binding; assignment replaces it).
-/

namespace WebResponders

/-- Model of an `objx` option value as stored inside an options map: a string
leaf, a nested map (covering both `map[string]interface{}` values, for which
`IsMSI` is true, and `objx.Map` values, for which `IsObjxMap` is true; the
source treats the two identically), or any other shape (for which both checks
fail and the source panics). -/
inductive OVal where
  | s (str : String) : OVal
  | m (entries : List (String × OVal)) : OVal
  | other : OVal

/-- Model of a non-nil `objx.Map`: an association list of option entries. -/
abbrev OMap := List (String × OVal)

/-- Model of an `objx.Map` variable, which may be nil (`none`). -/
abbrev Options := Option OMap

/-- Go map lookup on an association list: the first binding for the key. -/
def lookupKey {α : Type} : List (String × α) → String → Option α
  | [], _ => none
  | (k, v) :: rest, key => if k == key then some v else lookupKey rest key

/-- Go map membership test, as used by `objx.Map.Has`. -/
def hasKey {α : Type} (entries : List (String × α)) (key : String) : Bool :=
  (lookupKey entries key).isSome

/-- Go map assignment: replaces the binding for the key, or appends one. -/
def setKey {α : Type} : List (String × α) → String → α → List (String × α)
  | [], key, value => [(key, value)]
  | (k, v) :: rest, key, value =>
      if k == key then (k, value) :: rest else (k, v) :: setKey rest key value

/-- Capability record of a Go value: for each optional interface of the
package that the transformer checks with a type assertion or type switch,
`none` means the dynamic type does not implement it, and `some r` means it
does and the relevant method returns `r`. -/
structure CapsF (α : Type) where
  lazyLoad : Option α
  respObject : Option α
  respValue : Option α
  stringer : Option String
  errMsg : Option String
  nilResponse : Option α

/-- One declared struct field: its Go name, whether it is anonymous
(embedded), the values of its `response` and `db` tags (empty string when the
tag is absent, as `reflect.StructTag.Get` reports), and its value. -/
structure FieldF (α : Type) where
  name : String
  anonymous : Bool
  responseTag : String
  dbTag : String
  value : α

/-- Runtime shape of a Go value, as the transformer dispatches on
`reflect.Kind`: nil interface, string, integer, bool, typed nil pointer,
non-nil pointer, slice or array, string-keyed map (tagged with whether its
dynamic type is `objx.Map`), or struct (with its type name and fields). -/
inductive ShapeF (α : Type) where
  | nilv : ShapeF α
  | str (s : String) : ShapeF α
  | intv (n : Int) : ShapeF α
  | boolv (b : Bool) : ShapeF α
  | nilPtr : ShapeF α
  | ptr (elem : α) : ShapeF α
  | slice (elems : List α) : ShapeF α
  | mapv (isObjx : Bool) (entries : List (String × α)) : ShapeF α
  | structv (tname : String) (fields : List (FieldF α)) : ShapeF α

/-- A Go interface value as seen by the transformer: a capability record
paired with a runtime shape. -/
inductive GoVal where
  | mk (caps : CapsF GoVal) (shape : ShapeF GoVal) : GoVal

/-- Capability record of a value. -/
def GoVal.caps : GoVal → CapsF GoVal
  | .mk c _ => c

/-- Runtime shape of a value. -/
def GoVal.shape : GoVal → ShapeF GoVal
  | .mk _ s => s

/-- Capability record of a plain value implementing none of the interfaces. -/
def noCaps : CapsF GoVal := ⟨none, none, none, none, none, none⟩

/-- A plain Go string value. -/
def plainStr (s : String) : GoVal := GoVal.mk noCaps (.str s)

/-- The nil interface value. -/
def goNil : GoVal := GoVal.mk noCaps .nilv

/-- The `constructor` callback type of `CreateResponse`:
`func(interface{}, interface{}) interface{}`. -/
abbrev Constructor := GoVal → GoVal → GoVal

@[simp] theorem exceptPureEq {α : Type} (a : α) :
    (pure a : Except String α) = Except.ok a := rfl

@[simp] theorem exceptBindOk {α β : Type} (a : α) (f : α → Except String β) :
    (Except.ok a >>= f : Except String β) = f a := rfl

@[simp] theorem exceptBindErr {α β : Type} (e : String) (f : α → Except String β) :
    (Except.error e >>= f : Except String β) = Except.error e := rfl

@[simp] theorem caps_mk (c : CapsF GoVal) (s : ShapeF GoVal) :
    (GoVal.mk c s).caps = c := rfl

@[simp] theorem shape_mk (c : CapsF GoVal) (s : ShapeF GoVal) :
    (GoVal.mk c s).shape = s := rfl

/-- Constant from responders.go line 20: the name shared by the
`database/sql` nullable wrapper types. -/
def SqlNullablePrefix : String := "Null"

/-- Result of `createNullableDbResponse` (responders.go lines 122-138): either
a runtime panic (from the `.(bool)` type assertion), the
`No Nullable DB value found` error that makes `createStructResponse` fall
through to normal struct handling, or a successfully unwrapped value (the Go
function returns a nil interface for `Valid == false`, modelled as `goNil`). -/
inductive NullableResult where
  | panicked (msg : String) : NullableResult
  | noMatch : NullableResult
  | value (v : GoVal) : NullableResult

/-- Model of `strings.HasPrefix` on the byte level (agreeing with the
character level for the ASCII type names in play). -/
def goHasPrefix (s marker : String) : Bool :=
  marker.data.isPrefixOf s.data

/-- Model of the Go slice expression `typeName[len(marker):]`. -/
def goDropLen (s marker : String) : String :=
  ⟨s.data.drop marker.data.length⟩

/-- Model of `value.FieldByName(name)` restricted to directly declared fields
(the promoted-field search of `reflect` is not needed by any claim). -/
def findField (fields : List (FieldF GoVal)) (fname : String) : Option (FieldF GoVal) :=
  fields.find? (fun f => f.name == fname)

/-- Embedding of `createNullableDbResponse` (responders.go lines 122-138).
If the type name carries `SqlNullablePrefix`, the field named by stripping
that marker and the field `Valid` are looked up; when both exist, the Go code
runs `isNotNil.Interface().(bool)`, which panics unless the `Valid` field is a
`bool`, and then returns the value field (for `true`) or nil (for `false`).
In every other case it returns the `No Nullable DB value found` error. -/
def createNullableDbResponse (tname : String) (fields : List (FieldF GoVal)) :
    NullableResult :=
  if goHasPrefix tname SqlNullablePrefix then
    let fieldName := goDropLen tname SqlNullablePrefix
    match findField fields fieldName, findField fields "Valid" with
    | some val, some isNotNil =>
        match isNotNil.value.shape with
        | .boolv true => .value val.value
        | .boolv false => .value goNil
        | _ => .panicked "interface conversion: interface is not bool"
    | _, _ => .noMatch
  else .noMatch

/-- Model of `strings.ToLower` as used for field names: character-wise
lowercasing (the field names in play are ASCII, where Go and Lean agree). -/
def goToLower (s : String) : String :=
  ⟨s.data.map Char.toLower⟩

/-- Embedding of `ResponseTag` as defined in responders.go lines 179-190: the
`response` tag wins; otherwise the `db` tag is used when it is non-empty, not
the sentinel `-`, and the field is not named `Id`; otherwise the lowercased
field name.  (tag_finder.go lines 8-17 contain a conflicting definition of the
same function without the `Id` exception, embedded below as
`tagFinderResponseTag`.) -/
def ResponseTag (field : FieldF GoVal) : String :=
  if field.responseTag != "" then field.responseTag
  else if field.name != "Id" && field.dbTag != "" && field.dbTag != "-" then
    field.dbTag
  else goToLower field.name

/-- Embedding of the `ResponseTag` variant from tag_finder.go lines 8-17,
which lacks the `Id` special case of the responders.go definition. -/
def tagFinderResponseTag (field : FieldF GoVal) : String :=
  if field.responseTag != "" then field.responseTag
  else if field.dbTag != "" && field.dbTag != "-" then field.dbTag
  else goToLower field.name

/-- Model of `unicode.IsUpper(rune(fieldType.Name[0]))` (responders.go line
217); Go reads the first byte, which agrees with the first character for the
ASCII identifiers modelled here. -/
def isExportedName (s : String) : Bool :=
  match s.data with
  | [] => false
  | c :: _ => c.isUpper

/-- Model of `options.Get("type").Str()` (responders.go line 254): on a nil
map or a missing or non-string entry, `Str()` returns the empty string. -/
def optionsTypeStr (options : Options) : String :=
  match options with
  | none => ""
  | some m =>
      match lookupKey m "type" with
      | some (.s s) => s
      | _ => ""

/-- Embedding of the sub-option extraction in `createStructResponse`
(responders.go lines 223-238): with a nil options map, or when neither the
field key nor the wildcard `*` is present, the sub-options stay nil; a
matching entry must be map-shaped, anything else hits the
`Don t know what to do with option` panic (modelled as `Except.error`). -/
def structFieldOptions (options : Options) (name : String) : Except String Options :=
  match options with
  | none => pure none
  | some m =>
      if hasKey m name || hasKey m "*" then
        match (if hasKey m name then lookupKey m name else lookupKey m "*") with
        | some (.m entries) => pure (some entries)
        | _ => Except.error "unrecognized option value shape"
      else pure none

/-- Embedding of the element-option extraction in `createMapResponse`
(responders.go lines 145-161).  Unlike the struct version, when the options
map is non-nil but contains neither the entry key nor the wildcard, the
`*objx.Value` pointer stays nil and the subsequent `elementOptionsValue.IsMSI()`
call dereferences a nil pointer: a runtime panic, modelled as `Except.error`. -/
def mapElementOptions (options : Options) (keyStr : String) : Except String Options :=
  match options with
  | none => pure none
  | some m =>
      match (if hasKey m keyStr then lookupKey m keyStr
             else if hasKey m "*" then lookupKey m "*" else none) with
      | some (.m entries) => pure (some entries)
      | some _ => Except.error "unrecognized option value shape"
      | none => Except.error "runtime error: invalid memory address or nil pointer dereference"

/-- Go test `str != "" && str[0] == '/'` from responders.go line 98, reading
the first byte (first character of the ASCII strings modelled here). -/
def hasLeadingSlash (s : String) : Bool :=
  match s.data with
  | [] => false
  | c :: _ => c == '/'

/-- Embedding of responders.go lines 68-70: a `LazyLoader` has its `LazyLoad`
method run first; the model stores the resulting loaded value in the
capability record. -/
def lazyLoadStep (data : GoVal) : GoVal :=
  match data.caps.lazyLoad with
  | some loaded => loaded
  | none => data

/-- Embedding of responders.go lines 72-75: a `ResponseObjectCreator` is
replaced by the result of its `ResponseObject` method. -/
def responseObjectStep (data : GoVal) : GoVal :=
  match data.caps.respObject with
  | some obj => obj
  | none => data

/-- Embedding of responders.go lines 77-80: one level of pointer indirection
is removed before the shape switch. -/
def derefStep (v : GoVal) : GoVal :=
  match v.shape with
  | .ptr elem => elem
  | _ => v

/-- Association list of response entries, modelling the `objx.Map` that
`createStructResponse` builds. -/
abbrev OMapG := List (String × GoVal)

/-- Embedding of the merge loop for embedded fields (responders.go lines
211-216): each entry of the embedded response is copied in unless the key is
already present (values from the base struct are never overwritten). -/
def mergeNoOverwrite (response : OMapG) : OMapG → OMapG
  | [] => response
  | (k, v) :: rest =>
      mergeNoOverwrite (if hasKey response k then response else setKey response k v) rest

/-- A struct field that the ordinary-field branch of the field loop writes at
response key `key`: not anonymous, exported, resolving to `key`, with `key`
not the skip sentinel. -/
def writesKey (f : FieldF GoVal) (key : String) : Bool :=
  !f.anonymous && isExportedName f.name && (ResponseTag f == key) && (key != "-")

/-- Concrete embedded field whose transformation contributes the key `x`. -/
def c4Embedded : FieldF GoVal :=
  ⟨"E", true, "", "", GoVal.mk noCaps (.structv "E" [⟨"X", false, "", "", plainStr "w"⟩])⟩

/-- Concrete direct field contributing the key `x`. -/
def c4Direct : FieldF GoVal := ⟨"X", false, "", "", plainStr "v"⟩

theorem sizeOf_caps_lt (g : GoVal) : sizeOf g.caps < sizeOf g := by
  cases g with
  | mk c s => simp [GoVal.caps]; omega

theorem sizeOf_shape_lt (g : GoVal) : sizeOf g.shape < sizeOf g := by
  cases g with
  | mk c s => simp [GoVal.shape]

theorem sizeOf_lazyLoadStep (g : GoVal) : sizeOf (lazyLoadStep g) ≤ sizeOf g := by
  cases g with
  | mk c s =>
    cases c with
    | mk l ro rv st em nr =>
      cases l with
      | none => simp [lazyLoadStep, GoVal.caps]
      | some x => simp [lazyLoadStep, GoVal.caps]; omega

theorem sizeOf_responseObjectStep (g : GoVal) :
    sizeOf (responseObjectStep g) ≤ sizeOf g := by
  cases g with
  | mk c s =>
    cases c with
    | mk l ro rv st em nr =>
      cases ro with
      | none => simp [responseObjectStep, GoVal.caps]
      | some x => simp [responseObjectStep, GoVal.caps]; omega

theorem sizeOf_derefStep (g : GoVal) : sizeOf (derefStep g) ≤ sizeOf g := by
  cases g with
  | mk c s =>
    cases s with
    | ptr e => simp [derefStep, GoVal.shape]; omega
    | nilv => simp [derefStep, GoVal.shape]
    | str a => simp [derefStep, GoVal.shape]
    | intv a => simp [derefStep, GoVal.shape]
    | boolv a => simp [derefStep, GoVal.shape]
    | nilPtr => simp [derefStep, GoVal.shape]
    | slice a => simp [derefStep, GoVal.shape]
    | mapv a b => simp [derefStep, GoVal.shape]
    | structv a b => simp [derefStep, GoVal.shape]

theorem one_le_sizeOf_shape (s : ShapeF GoVal) : 1 ≤ sizeOf s := by
  cases s <;> simp <;> omega

theorem one_le_sizeOf_optVal (o : Option GoVal) : 1 ≤ sizeOf o := by
  cases o <;> simp

theorem one_le_sizeOf_optStr (o : Option String) : 1 ≤ sizeOf o := by
  cases o <;> simp

theorem sizeOf_plainStr (s : String) : sizeOf (plainStr s) = 9 + sizeOf s := by
  simp [plainStr, noCaps]
  omega

theorem sizeOf_respValue_lt (v rv : GoVal) (h : v.caps.respValue = some rv) :
    sizeOf rv < sizeOf v := by
  cases v with
  | mk c s =>
    cases c with
    | mk l ro rvf st em nr =>
      simp [GoVal.caps] at h
      subst h
      simp
      omega

theorem sizeOf_stringer_le (v : GoVal) (s : String) (h : v.caps.stringer = some s) :
    sizeOf (plainStr s) ≤ sizeOf v := by
  cases v with
  | mk c sh =>
    cases c with
    | mk l ro rvf st em nr =>
      simp [GoVal.caps] at h
      subst h
      rw [sizeOf_plainStr]
      have h1 := one_le_sizeOf_shape sh
      have h2 := one_le_sizeOf_optVal l
      have h3 := one_le_sizeOf_optVal ro
      have h4 := one_le_sizeOf_optVal rvf
      have h5 := one_le_sizeOf_optVal nr
      have h6 := one_le_sizeOf_optStr em
      simp
      omega

theorem sizeOf_errMsg_le (v : GoVal) (s : String) (h : v.caps.errMsg = some s) :
    sizeOf (plainStr s) ≤ sizeOf v := by
  cases v with
  | mk c sh =>
    cases c with
    | mk l ro rvf st em nr =>
      simp [GoVal.caps] at h
      subst h
      rw [sizeOf_plainStr]
      have h1 := one_le_sizeOf_shape sh
      have h2 := one_le_sizeOf_optVal l
      have h3 := one_le_sizeOf_optVal ro
      have h4 := one_le_sizeOf_optVal rvf
      have h5 := one_le_sizeOf_optVal nr
      have h6 := one_le_sizeOf_optStr st
      simp
      omega

theorem sizeOf_fieldValue_lt (f : FieldF GoVal) : sizeOf f.value < sizeOf f := by
  cases f with
  | mk n a rt dt v => simp [FieldF.value]

theorem one_le_sizeOf_caps (c : CapsF GoVal) : 1 ≤ sizeOf c := by
  cases c with
  | mk l ro rv st em nr => simp; omega

theorem sizeOf_shape_lt2 (g : GoVal) : sizeOf g.shape + 2 ≤ sizeOf g := by
  cases g with
  | mk c s =>
    have := one_le_sizeOf_caps c
    simp [GoVal.shape]
    omega

theorem sizeOf_substSteps_le (g : GoVal) :
    sizeOf (derefStep (responseObjectStep (lazyLoadStep g))) ≤ sizeOf g :=
  le_trans (sizeOf_derefStep _)
    (le_trans (sizeOf_responseObjectStep _) (sizeOf_lazyLoadStep _))

mutual

/-- Embedding of `CreateResponse` (responders.go lines 41-63) after the
variadic option list has been parsed into its three possible components: a
value implementing `error` is answered with its `Error()` string immediately;
otherwise `createResponse` runs with `isSubResponse = false`.  A constructor
of `none` models both an absent and a nil callback. -/
def CreateResponse (data : GoVal) (options : Options)
    (constructor : Option Constructor) (domain : String) : Except String GoVal :=
  match data.caps.errMsg with
  | some e => pure (plainStr e)
  | none => createResponse data false options constructor domain
termination_by 2 * sizeOf data + 1
decreasing_by
omega

/-- Embedding of `createResponse` (responders.go lines 65-109): `LazyLoad`
and `ResponseObject` substitution, one level of pointer dereference, then the
shape switch.  A slice additionally runs the constructor callback when the
options map is non-nil and this is a sub-response (calling a nil constructor
is a Go panic).  A string is domain-rewritten only for a non-empty domain;
every other shape returns `responseData` unchanged. -/
def createResponse (data : GoVal) (isSubResponse : Bool) (options : Options)
    (constructor : Option Constructor) (domain : String) : Except String GoVal :=
  let responseData := responseObjectStep (lazyLoadStep data)
  let value := derefStep responseData
  match h : value.shape with
  | .structv tname fields =>
      createStructResponse tname fields options constructor domain
  | .slice elems => do
      let rs ← createSliceResponse elems options constructor domain
      let sliceData := GoVal.mk noCaps (.slice rs)
      if options.isSome && isSubResponse then
        match constructor with
        | some c => pure (c sliceData value)
        | none =>
            Except.error "runtime error: invalid memory address or nil pointer dereference"
      else pure sliceData
  | .mapv isObjx entries =>
      createMapResponse isObjx entries options constructor domain
  | .str s =>
      if domain != "" then
        pure (plainStr (if s != "" && hasLeadingSlash s then domain ++ s else s))
      else pure responseData
  | _ => pure responseData
termination_by 2 * sizeOf data
decreasing_by
all_goals
  have hv : sizeOf value ≤ sizeOf data := sizeOf_substSteps_le data
  have hs := sizeOf_shape_lt2 value
  rw [h] at hs
  simp at hs
  omega

/-- Embedding of `createStructResponse` (responders.go lines 194-244): the
nullable unwrap is attempted first; on its `No Nullable DB value found` error
the field loop builds an `objx.Map`. -/
def createStructResponse (tname : String) (fields : List (FieldF GoVal))
    (options : Options) (constructor : Option Constructor) (domain : String) :
    Except String GoVal :=
  match createNullableDbResponse tname fields with
  | .panicked msg => Except.error msg
  | .value v => pure v
  | .noMatch => do
      let response ← goFields fields [] options constructor domain
      pure (GoVal.mk noCaps (.mapv true response))
termination_by 2 * sizeOf fields + 4
decreasing_by
omega

/-- Embedding of the field loop of `createStructResponse` (responders.go
lines 205-242), processing declared fields in order over the accumulated
response map.  An anonymous field is transformed with the full
`CreateResponse` and the result type-asserted to `objx.Map` (a Go panic when
it is not one) and merged without overwriting; an exported ordinary field is
skipped when its `ResponseTag` is the sentinel, and otherwise written at its
resolved key; unexported fields are ignored. -/
def goFields (fields : List (FieldF GoVal)) (response : OMapG)
    (options : Options) (constructor : Option Constructor) (domain : String) :
    Except String OMapG :=
  match fields with
  | [] => pure response
  | f :: rest =>
      if f.anonymous then do
        let embedded ← CreateResponse f.value options constructor domain
        match embedded.shape with
        | .mapv true entries =>
            goFields rest (mergeNoOverwrite response entries) options constructor domain
        | _ => Except.error "interface conversion: response value is not objx.Map"
      else if isExportedName f.name then
        let name := ResponseTag f
        if name == "-" then goFields rest response options constructor domain
        else do
          let subOptions ← structFieldOptions options name
          let rv ← createResponseValue f.value subOptions constructor domain
          goFields rest (setKey response name rv) options constructor domain
      else goFields rest response options constructor domain
termination_by 2 * sizeOf fields + 3
decreasing_by
all_goals have hf := sizeOf_fieldValue_lt f
all_goals simp
all_goals omega

/-- Embedding of `createSliceResponse` (responders.go lines 170-177): each
element becomes a response value, in order. -/
def createSliceResponse (elems : List GoVal) (options : Options)
    (constructor : Option Constructor) (domain : String) :
    Except String (List GoVal) :=
  match elems with
  | [] => pure []
  | e :: rest => do
      let r ← createResponseValue e options constructor domain
      let rs ← createSliceResponse rest options constructor domain
      pure (r :: rs)
termination_by 2 * sizeOf elems
decreasing_by
all_goals simp
all_goals omega

/-- Embedding of `createMapResponse` (responders.go lines 142-166): the entry
loop runs over the (string-keyed) map and the result is a map of the same
dynamic type. -/
def createMapResponse (isObjx : Bool) (entries : List (String × GoVal))
    (options : Options) (constructor : Option Constructor) (domain : String) :
    Except String GoVal := do
  let rs ← goEntries entries options constructor domain
  pure (GoVal.mk noCaps (.mapv isObjx rs))
termination_by 2 * sizeOf entries + 1
decreasing_by
omega

/-- Embedding of the entry loop of `createMapResponse` (responders.go lines
144-164): element options are resolved by `mapElementOptions` (which panics
on a non-nil options map matching neither the key nor the wildcard), then the
entry value is transformed. -/
def goEntries (entries : List (String × GoVal)) (options : Options)
    (constructor : Option Constructor) (domain : String) :
    Except String (List (String × GoVal)) :=
  match entries with
  | [] => pure []
  | (keyStr, v) :: rest => do
      let elementOptions ← mapElementOptions options keyStr
      let itemResponse ← createResponseValue v elementOptions constructor domain
      let rs ← goEntries rest options constructor domain
      pure ((keyStr, itemResponse) :: rs)
termination_by 2 * sizeOf entries
decreasing_by
all_goals simp
all_goals omega

/-- Embedding of `createResponseValue` (responders.go lines 248-269): a nil
pointer answers with its `NilResponder` value or nil; otherwise, unless the
options carry `type = "full"`, the capability type switch runs in source
order (`ResponseValueCreator`, then `fmt.Stringer`, then `error`, then the
generic fallthrough); with the `full` override the generic `createResponse`
is used directly. -/
def createResponseValue (value : GoVal) (options : Options)
    (constructor : Option Constructor) (domain : String) : Except String GoVal :=
  match value.shape with
  | .nilPtr =>
      match value.caps.nilResponse with
      | some nr => pure nr
      | none => pure goNil
  | _ =>
      if optionsTypeStr options != "full" then
        match h1 : value.caps.respValue with
        | some rv => createResponse rv true options constructor domain
        | none =>
            match h2 : value.caps.stringer with
            | some s => createResponse (plainStr s) true options constructor domain
            | none =>
                match h3 : value.caps.errMsg with
                | some e => createResponse (plainStr e) true options constructor domain
                | none => createResponse value true options constructor domain
      else createResponse value true options constructor domain
termination_by 2 * sizeOf value + 1
decreasing_by
· have := sizeOf_respValue_lt value rv h1
  omega
· have := sizeOf_stringer_le value s h2
  omega
· have := sizeOf_errMsg_le value e h3
  omega
· omega
· omega

end

/-- Embedding of `MessageMap` (message_map.go line 15): a
`map[string][]string`, modelled as an association list with Go map
semantics. -/
abbrev MessageMap := List (String × List String)

/-- Embedding of `NewMessageMap` (message_map.go lines 18-24): the three
severity buckets exist, empty, from construction. -/
def NewMessageMap : MessageMap :=
  [("err", []), ("warn", []), ("info", [])]

/-- Go read `mm[severity]`: a missing key yields the zero value (nil slice,
modelled as the empty list). -/
def MessageMap.bucket (mm : MessageMap) (severity : String) : List String :=
  (lookupKey mm severity).getD []

/-- Embedding of `MessageMap.addMessage` (message_map.go lines 30-33):
`mm[severity] = append(mm[severity], message)`.  The `go mm.log(severity,
message)` statement launches a background log write that never touches the
map and is not modelled. -/
def MessageMap.addMessage (mm : MessageMap) (severity message : String) :
    MessageMap :=
  setKey mm severity (mm.bucket severity ++ [message])

/-- Embedding of `MessageMap.AddErrorMessage` (message_map.go lines 36-38). -/
def MessageMap.AddErrorMessage (mm : MessageMap) (message : String) : MessageMap :=
  mm.addMessage "err" message

/-- Embedding of `MessageMap.Errors` (message_map.go lines 42-44). -/
def MessageMap.Errors (mm : MessageMap) : List String :=
  mm.bucket "err"

/-- Embedding of `MessageMap.AddWarningMessage` (message_map.go lines 47-49). -/
def MessageMap.AddWarningMessage (mm : MessageMap) (message : String) : MessageMap :=
  mm.addMessage "warn" message

/-- Embedding of `MessageMap.Warnings` (message_map.go lines 53-55). -/
def MessageMap.Warnings (mm : MessageMap) : List String :=
  mm.bucket "warn"

/-- Embedding of `MessageMap.AddInfoMessage` (message_map.go lines 58-60). -/
def MessageMap.AddInfoMessage (mm : MessageMap) (message : String) : MessageMap :=
  mm.addMessage "info" message

/-- Embedding of `MessageMap.Infos` (message_map.go lines 64-66). -/
def MessageMap.Infos (mm : MessageMap) : List String :=
  mm.bucket "info"

/-- Whether a capability record is empty: the dynamic type implements none of
the optional interfaces, as is the case for every value the transformer
itself produces (`objx.Map`, plain maps, `[]interface{}`, strings, scalars). -/
def capsNone (c : CapsF GoVal) : Bool :=
  c.lazyLoad.isNone && c.respObject.isNone && c.respValue.isNone
    && c.stringer.isNone && c.errMsg.isNone && c.nilResponse.isNone

mutual

/-- A response tree as described by the idempotence property: built only of
string-keyed mappings, sequences and scalars, implementing no capability
interfaces. -/
def isPlainTree (g : GoVal) : Bool :=
  match g with
  | .mk c s => capsNone c && isPlainShape s
termination_by sizeOf g

/-- Shape part of `isPlainTree`. -/
def isPlainShape (s : ShapeF GoVal) : Bool :=
  match s with
  | .nilv => true
  | .str _ => true
  | .intv _ => true
  | .boolv _ => true
  | .nilPtr => false
  | .ptr _ => false
  | .slice elems => isPlainList elems
  | .mapv _ entries => isPlainEntries entries
  | .structv _ _ => false
termination_by sizeOf s

/-- Sequence part of `isPlainTree`. -/
def isPlainList (elems : List GoVal) : Bool :=
  match elems with
  | [] => true
  | e :: rest => isPlainTree e && isPlainList rest
termination_by sizeOf elems

/-- Mapping part of `isPlainTree`. -/
def isPlainEntries (entries : List (String × GoVal)) : Bool :=
  match entries with
  | [] => true
  | (_, v) :: rest => isPlainTree v && isPlainEntries rest
termination_by sizeOf entries

end

/-- Concrete already-transformed tree: a mapping holding a sequence of
scalars. -/
def plainTreeSample : GoVal :=
  GoVal.mk noCaps (.mapv true
    [("a", GoVal.mk noCaps (.slice [plainStr "x", GoVal.mk noCaps (.intv 3)]))])

/-- Response-key resolution exactly as the specification words it, used to
compare the spec against the source `ResponseTag`: the `response` tag value
if non-empty; else the `db` tag value when non-empty and not `-`; else the
lowercased field name. -/
def specResponseKey (field : FieldF GoVal) : String :=
  if field.responseTag != "" then field.responseTag
  else if field.dbTag != "" && field.dbTag != "-" then field.dbTag
  else goToLower field.name

/-- Concrete field named `Id` carrying only a `db` tag, on which the
responders.go `ResponseTag` and the specified precedence disagree. -/
def idField : FieldF GoVal := ⟨"Id", false, "", "legacy_id", goNil⟩

/-- Concrete fields of a struct named `NullFoo` whose `Valid` field is an
`int` rather than a `bool`: the shape the nullable heuristic half-matches. -/
def nullFooFields : List (FieldF GoVal) :=
  [⟨"Foo", false, "", "", plainStr "x"⟩,
   ⟨"Valid", false, "", "", GoVal.mk noCaps (.intv 7)⟩]

/-- Concrete value implementing both the custom-element capability
(`ResponseValueCreator`, returning the string `custom`) and `fmt.Stringer`
(returning `stringy`). -/
def dualCapVal : GoVal :=
  GoVal.mk ⟨none, none, some (plainStr "custom"), some "stringy", none, none⟩
    (.intv 0)

/-- Concrete value used to exercise the error short-circuit: it implements
`error` besides carrying every other capability and a struct shape. -/
def errDecoy : GoVal :=
  GoVal.mk ⟨some goNil, some goNil, some goNil, some "text", some "boom", none⟩
    (.structv "T" [⟨"A", false, "", "", plainStr "x"⟩])

/-! General association-list lemmas about the Go map model, shared by the
claim proofs below. -/

theorem lookupKey_setKey {α : Type} (m : List (String × α)) (k : String) (v : α) :
    lookupKey (setKey m k v) k = some v := by
  induction m with
  | nil => simp [setKey, lookupKey]
  | cons kv rest ih =>
    by_cases h : kv.1 == k
    · cases kv with
      | mk k1 v1 => simp only [setKey] at *; rw [if_pos h]; simp [lookupKey, h]
    · cases kv with
      | mk k1 v1 =>
        simp only [setKey] at *
        rw [if_neg h]
        simp [lookupKey, h, ih]

theorem lookupKey_setKey_ne {α : Type} (m : List (String × α)) (k key : String)
    (v : α) (h : k ≠ key) : lookupKey (setKey m k v) key = lookupKey m key := by
  induction m with
  | nil => simp [setKey, lookupKey, h]
  | cons kv rest ih =>
    by_cases h1 : kv.1 == k
    · cases kv with
      | mk k1 v1 =>
        simp only [setKey]
        rw [if_pos h1]
        simp only [lookupKey]
        simp at h1
        subst h1
        simp [h]
    · cases kv with
      | mk k1 v1 =>
        simp only [setKey]
        rw [if_neg h1]
        simp [lookupKey, ih]

/-- C10: for every value that implements the `error` interface,
`CreateResponse` returns the value's `Error()` message string immediately:
the result is a plain string equal to the message, and is independent of the
options map, the constructor, the domain, and everything else about the value
(its other capabilities and its shape), so no option is consulted, no
`LazyLoad` or `ResponseObject` capability is invoked, and no struct, slice,
or map walking occurs for the top-level error value. -/
theorem c10_error_short_circuit (g : GoVal) (msg : String)
    (h : g.caps.errMsg = some msg) (options : Options)
    (constructor : Option Constructor) (domain : String) :
    CreateResponse g options constructor domain = .ok (plainStr msg) := by
  simp [CreateResponse, h]

/-- Witness for C10 at a concrete input: a value carrying every capability
and a struct shape is still answered with its error message. -/
theorem c10_witness : CreateResponse errDecoy (some [("a", .m [])])
    (some (fun a _ => a)) "https://h" = .ok (plainStr "boom") :=
  c10_error_short_circuit errDecoy "boom" rfl (some [("a", .m [])])
    (some (fun a _ => a)) "https://h"

/-- C8: for a string value (one whose dynamic type adds no load or
substitution capability), transforming with a non-empty domain prepends the
domain exactly when the string begins with a slash and leaves it unchanged
otherwise, and transforming with an empty domain passes the value through
unchanged. -/
theorem c8_domain_rewriting (c : CapsF GoVal) (s : String)
    (hl : c.lazyLoad = none) (hr : c.respObject = none) :
    (∀ domain : String, domain ≠ "" →
      ∀ (isSub : Bool) (opts : Options) (cons : Option Constructor),
        createResponse (GoVal.mk c (.str s)) isSub opts cons domain
          = .ok (plainStr (if s != "" && hasLeadingSlash s then domain ++ s else s)))
    ∧ (∀ (isSub : Bool) (opts : Options) (cons : Option Constructor),
        createResponse (GoVal.mk c (.str s)) isSub opts cons ""
          = .ok (GoVal.mk c (.str s))) := by
  cases c with
  | mk l ro rv st em nr =>
    simp only [CapsF.lazyLoad] at hl
    simp only [CapsF.respObject] at hr
    subst hl
    subst hr
    constructor
    · intro domain hd isSub opts cons
      simp [createResponse, lazyLoadStep, responseObjectStep, derefStep, hd]
    · intro isSub opts cons
      simp [createResponse, lazyLoadStep, responseObjectStep, derefStep]

/-- Witness for C8 at the specification's concrete example: `"/widgets/1"`
with domain `"https://api.example.com"` is rewritten to the prefixed URL,
while `"widgets/1"` is passed through under the same domain. -/
theorem c8_witness :
    createResponse (plainStr "/widgets/1") false none none "https://api.example.com"
        = .ok (plainStr "https://api.example.com/widgets/1")
      ∧ createResponse (plainStr "widgets/1") false none none "https://api.example.com"
        = .ok (plainStr "widgets/1") := by
  constructor
  · have h := (c8_domain_rewriting noCaps "/widgets/1" rfl rfl).1
      "https://api.example.com" (by decide) false none none
    rw [show plainStr "/widgets/1" = GoVal.mk noCaps (.str "/widgets/1") from rfl, h]
    simp +decide [plainStr]
  · have h := (c8_domain_rewriting noCaps "widgets/1" rfl rfl).1
      "https://api.example.com" (by decide) false none none
    rw [show plainStr "widgets/1" = GoVal.mk noCaps (.str "widgets/1") from rfl, h]
    simp +decide [plainStr]

/-- C9: the severity buckets `err`, `warn`, `info` exist (empty) from
construction of a `MessageMap`; `addMessage` synchronously appends the
message at the end of its severity bucket, preserving order and duplicates;
and after adding the error messages `a` then `b`, `Errors()` is exactly
`["a", "b"]`, independent of the background log delivery (which never touches
the map). -/
theorem c9_ledger_ordering :
    (lookupKey NewMessageMap "err" = some [] ∧ lookupKey NewMessageMap "warn" = some []
      ∧ lookupKey NewMessageMap "info" = some [])
    ∧ (∀ (mm : MessageMap) (severity message : String),
        (mm.addMessage severity message).bucket severity
          = mm.bucket severity ++ [message])
    ∧ ((NewMessageMap.AddErrorMessage "a").AddErrorMessage "b").Errors = ["a", "b"] := by
  refine ⟨by decide, ?_, by decide⟩
  intro mm severity message
  simp [MessageMap.addMessage, MessageMap.bucket, lookupKey_setKey]

/-- Counterexample to C2: for the field `Id` with no `response` tag and `db`
tag `legacy_id`, the stated precedence resolves the key to the `db` tag value
`legacy_id`, but the source `ResponseTag` (responders.go lines 184-188 skip
the `db` tag for a field named `Id`) resolves it to the lowercased field name
`id`. -/
theorem c2_counterexample :
    ResponseTag idField = "id" ∧ specResponseKey idField = "legacy_id"
      ∧ ResponseTag idField ≠ specResponseKey idField := by
  refine ⟨by decide, by decide, by decide⟩

/-- C2 (amended): the stated precedence (response tag, else non-empty
non-sentinel db tag, else lowercased name) holds for every field not named
`Id`; a field named `Id` ignores its `db` tag and resolves to its `response`
tag or else to `id`; and a non-anonymous exported field whose resolved key is
the sentinel `-` contributes nothing to the struct response (processing it is
a no-op of the field loop). -/
theorem c2_key_resolution :
    (∀ f : FieldF GoVal, f.name ≠ "Id" → ResponseTag f = specResponseKey f)
    ∧ (∀ f : FieldF GoVal, f.name = "Id" →
        ResponseTag f = (if f.responseTag != "" then f.responseTag else "id"))
    ∧ (∀ (f : FieldF GoVal) (rest : List (FieldF GoVal)) (response : OMapG)
        (options : Options) (constructor : Option Constructor) (domain : String),
        f.anonymous = false → isExportedName f.name = true → ResponseTag f = "-" →
        goFields (f :: rest) response options constructor domain
          = goFields rest response options constructor domain) := by
  refine ⟨?_, ?_, ?_⟩
  · intro f h
    have hb : (f.name != "Id") = true := by simp [h]
    simp only [ResponseTag, specResponseKey, hb, Bool.true_and]
  · intro f h
    have hb : (f.name != "Id") = false := by simp [h]
    simp only [ResponseTag, hb, Bool.false_and, if_false]
    rw [h]
    by_cases hr : f.responseTag != ""
    · simp [hr]
    · simp [hr]
      decide
  · intro f rest response options constructor domain ha he hs
    simp [goFields, ha, he, hs]

/-- Witness for C2 at concrete inputs: an ordinary tagged field resolves to
its `response` tag, and a field whose key is the sentinel is skipped by the
field loop. -/
theorem c2_witness :
    ResponseTag ⟨"Name", false, "title", "", goNil⟩ = "title"
      ∧ goFields [⟨"Secret", false, "-", "", goNil⟩] [] none none ""
          = goFields [] [] none none "" := by
  constructor
  · have h := c2_key_resolution.1 ⟨"Name", false, "title", "", goNil⟩ (by decide)
    rw [h]
    decide
  · exact c2_key_resolution.2.2 ⟨"Secret", false, "-", "", goNil⟩ [] [] none none ""
      rfl (by decide) (by decide)

theorem lookupKey_mergeNoOverwrite (embedded : OMapG) (response : OMapG)
    (key : String) (w : GoVal) (h : lookupKey response key = some w) :
    lookupKey (mergeNoOverwrite response embedded) key = some w := by
  induction embedded generalizing response with
  | nil => simpa [mergeNoOverwrite] using h
  | cons kv rest ih =>
    cases kv with
    | mk k v =>
      rw [mergeNoOverwrite]
      by_cases hk : hasKey response k
      · rw [if_pos hk]
        exact ih response h
      · rw [if_neg hk]
        apply ih
        have hne : k ≠ key := by
          intro he
          subst he
          simp [hasKey, h] at hk
        rw [lookupKey_setKey_ne response k key v hne]
        exact h

theorem goFields_preserves (fields : List (FieldF GoVal)) :
    ∀ (response : OMapG) (options : Options) (constructor : Option Constructor)
      (domain : String) (key : String) (w : GoVal) (res : OMapG),
    (∀ f ∈ fields, writesKey f key = false) → key ≠ "-" →
    lookupKey response key = some w →
    goFields fields response options constructor domain = .ok res →
    lookupKey res key = some w := by
  induction fields with
  | nil =>
    intro response options constructor domain key w res hall hk hlook hok
    simp [goFields] at hok
    rw [← hok]
    exact hlook
  | cons f rest ih =>
    intro response options constructor domain key w res hall hk hlook hok
    have hf : writesKey f key = false := hall f (List.mem_cons_self f rest)
    have hrest : ∀ g ∈ rest, writesKey g key = false := by
      intro g hg
      exact hall g (List.mem_cons_of_mem f hg)
    rw [goFields] at hok
    by_cases ha : f.anonymous
    · rw [if_pos ha] at hok
      cases hc : CreateResponse f.value options constructor domain with
      | error e => rw [hc] at hok; simp at hok
      | ok emb =>
        rw [hc] at hok
        simp only [exceptBindOk] at hok
        cases hsh : emb.shape with
        | mapv io entries =>
          cases io with
          | true =>
            rw [hsh] at hok
            exact ih _ options constructor domain key w res hrest hk
              (lookupKey_mergeNoOverwrite entries response key w hlook) hok
          | false => rw [hsh] at hok; simp at hok
        | nilv => rw [hsh] at hok; simp at hok
        | str s => rw [hsh] at hok; simp at hok
        | intv n => rw [hsh] at hok; simp at hok
        | boolv b => rw [hsh] at hok; simp at hok
        | nilPtr => rw [hsh] at hok; simp at hok
        | ptr e => rw [hsh] at hok; simp at hok
        | slice es => rw [hsh] at hok; simp at hok
        | structv tn fs => rw [hsh] at hok; simp at hok
    · rw [if_neg ha] at hok
      by_cases he : isExportedName f.name
      · rw [if_pos he] at hok
        by_cases hn : ResponseTag f == "-"
        · rw [if_pos hn] at hok
          exact ih response options constructor domain key w res hrest hk hlook hok
        · rw [if_neg hn] at hok
          have hne : ResponseTag f ≠ key := by
            intro hek
            have : writesKey f key = true := by
              simp [writesKey, ha, he, hek, hk]
            rw [this] at hf
            exact Bool.noConfusion hf
          cases hso : structFieldOptions options (ResponseTag f) with
          | error e => rw [hso] at hok; simp at hok
          | ok so =>
            rw [hso] at hok
            simp only [exceptBindOk] at hok
            cases hrv : createResponseValue f.value so constructor domain with
            | error e => rw [hrv] at hok; simp at hok
            | ok rv =>
              rw [hrv] at hok
              simp only [exceptBindOk] at hok
              apply ih _ options constructor domain key w res hrest hk _ hok
              rw [lookupKey_setKey_ne response (ResponseTag f) key rv hne]
              exact hlook
      · rw [if_neg he] at hok
        exact ih response options constructor domain key w res hrest hk hlook hok

theorem goFields_unique_write (fields : List (FieldF GoVal)) :
    ∀ (response : OMapG) (options : Options) (constructor : Option Constructor)
      (domain : String) (key : String) (f : FieldF GoVal) (res : OMapG),
    key ≠ "-" →
    fields.filter (fun g => writesKey g key) = [f] →
    goFields fields response options constructor domain = .ok res →
    ∃ so rv, structFieldOptions options key = .ok so
      ∧ createResponseValue f.value so constructor domain = .ok rv
      ∧ lookupKey res key = some rv := by
  induction fields with
  | nil =>
    intro response options constructor domain key f res hk hfil hok
    simp at hfil
  | cons f0 rest ih =>
    intro response options constructor domain key f res hk hfil hok
    rw [goFields] at hok
    by_cases hw : writesKey f0 key
    · simp only [List.filter_cons, hw, if_true] at hfil
      injection hfil with hf0 hrestfil
      subst hf0
      have hrest : ∀ g ∈ rest, writesKey g key = false := by
        intro g hg
        by_cases hgw : writesKey g key
        · exfalso
          have : g ∈ rest.filter (fun g => writesKey g key) :=
            List.mem_filter.mpr ⟨hg, hgw⟩
          rw [hrestfil] at this
          simp at this
        · simpa using hgw
      have hwk := hw
      simp only [writesKey, Bool.and_eq_true, Bool.not_eq_true'] at hwk
      obtain ⟨⟨⟨ha, he⟩, htag⟩, _⟩ := hwk
      have htag' : ResponseTag f0 = key := by simpa using htag
      rw [if_neg (by simp [ha]), if_pos he] at hok
      have hn : ¬((ResponseTag f0 == "-") = true) := by
        simp [htag']
        exact hk
      rw [if_neg hn] at hok
      rw [htag'] at hok
      cases hso : structFieldOptions options key with
      | error e => rw [hso] at hok; simp at hok
      | ok so =>
        rw [hso] at hok
        simp only [exceptBindOk] at hok
        cases hrv : createResponseValue f0.value so constructor domain with
        | error e => rw [hrv] at hok; simp at hok
        | ok rv =>
          rw [hrv] at hok
          simp only [exceptBindOk] at hok
          refine ⟨so, rv, rfl, hrv, ?_⟩
          exact goFields_preserves rest _ options constructor domain key rv res
            hrest hk (lookupKey_setKey response key rv) hok
    · simp only [List.filter_cons] at hfil
      rw [if_neg hw] at hfil
      by_cases ha : f0.anonymous
      · rw [if_pos ha] at hok
        cases hc : CreateResponse f0.value options constructor domain with
        | error e => rw [hc] at hok; simp at hok
        | ok emb =>
          rw [hc] at hok
          simp only [exceptBindOk] at hok
          cases hsh : emb.shape with
          | mapv io entries =>
            cases io with
            | true =>
              rw [hsh] at hok
              exact ih _ options constructor domain key f res hk hfil hok
            | false => rw [hsh] at hok; simp at hok
          | nilv => rw [hsh] at hok; simp at hok
          | str s => rw [hsh] at hok; simp at hok
          | intv n => rw [hsh] at hok; simp at hok
          | boolv b => rw [hsh] at hok; simp at hok
          | nilPtr => rw [hsh] at hok; simp at hok
          | ptr e => rw [hsh] at hok; simp at hok
          | slice es => rw [hsh] at hok; simp at hok
          | structv tn fs => rw [hsh] at hok; simp at hok
      · rw [if_neg ha] at hok
        by_cases he : isExportedName f0.name
        · rw [if_pos he] at hok
          by_cases hn : ResponseTag f0 == "-"
          · rw [if_pos hn] at hok
            exact ih response options constructor domain key f res hk hfil hok
          · rw [if_neg hn] at hok
            cases hso : structFieldOptions options (ResponseTag f0) with
            | error e => rw [hso] at hok; simp at hok
            | ok so =>
              rw [hso] at hok
              simp only [exceptBindOk] at hok
              cases hrv : createResponseValue f0.value so constructor domain with
              | error e => rw [hrv] at hok; simp at hok
              | ok rv =>
                rw [hrv] at hok
                simp only [exceptBindOk] at hok
                exact ih _ options constructor domain key f res hk hfil hok
        · rw [if_neg he] at hok
          exact ih response options constructor domain key f res hk hfil hok

/-- Counterexample to C6: transforming the map `{"a": "x"}` under the non-nil
options tree `{"b": {}}` (no entry for `a`, no wildcard) does not give the
entry `a` empty sub-options; instead `createMapResponse` leaves its
`*objx.Value` nil and the `IsMSI` call on it panics (responders.go lines
145-160), aborting the transformation. -/
theorem c6_counterexample :
    CreateResponse (GoVal.mk noCaps (.mapv false [("a", plainStr "x")]))
        (some [("b", .m [])]) none ""
      = .error "runtime error: invalid memory address or nil pointer dereference" := by
  simp +decide [CreateResponse, createResponse, createMapResponse, goEntries,
    mapElementOptions, lazyLoadStep, responseObjectStep, derefStep, noCaps,
    hasKey, lookupKey]

/-- C6 (amended): sub-option resolution for struct fields follows the claim
exactly (exact key, else wildcard, else empty, and nil options give empty);
for map entries the exact key also takes precedence over the wildcard and nil
options give empty sub-options, but with a non-nil options map an entry key
matching neither the exact key nor the wildcard is a runtime panic rather
than empty sub-options. -/
theorem c6_suboption_resolution :
    (∀ (m : OMap) (name : String) (entries : OMap),
        lookupKey m name = some (.m entries) →
        structFieldOptions (some m) name = .ok (some entries)
          ∧ mapElementOptions (some m) name = .ok (some entries))
    ∧ (∀ (m : OMap) (name : String) (entries : OMap),
        lookupKey m name = none → lookupKey m "*" = some (.m entries) →
        structFieldOptions (some m) name = .ok (some entries)
          ∧ mapElementOptions (some m) name = .ok (some entries))
    ∧ (∀ (m : OMap) (name : String),
        lookupKey m name = none → lookupKey m "*" = none →
        structFieldOptions (some m) name = .ok none
          ∧ mapElementOptions (some m) name
            = .error "runtime error: invalid memory address or nil pointer dereference")
    ∧ (∀ name : String,
        structFieldOptions none name = .ok none
          ∧ mapElementOptions none name = .ok none) := by
  refine ⟨?_, ?_, ?_, ?_⟩
  · intro m name entries h
    constructor
    · simp [structFieldOptions, hasKey, h]
    · simp [mapElementOptions, hasKey, h]
  · intro m name entries h hw
    constructor
    · simp [structFieldOptions, hasKey, h, hw]
    · simp [mapElementOptions, hasKey, h, hw]
  · intro m name h hw
    constructor
    · simp [structFieldOptions, hasKey, h, hw]
    · simp [mapElementOptions, hasKey, h, hw]
  · intro name
    exact ⟨rfl, rfl⟩

/-- Witness for C6 (amended) at concrete inputs: with options
`{"a": {"t":"x"}, "*": {"w":"y"}}` the key `a` resolves to its exact entry in
both the struct and the map paths, while the key `b` resolves to the wildcard
entry. -/
theorem c6_witness :
    (structFieldOptions (some [("a", .m [("t", .s "x")]), ("*", .m [("w", .s "y")])]) "a"
        = .ok (some [("t", .s "x")])
      ∧ mapElementOptions (some [("a", .m [("t", .s "x")]), ("*", .m [("w", .s "y")])]) "a"
        = .ok (some [("t", .s "x")]))
    ∧ (structFieldOptions (some [("a", .m [("t", .s "x")]), ("*", .m [("w", .s "y")])]) "b"
        = .ok (some [("w", .s "y")])
      ∧ mapElementOptions (some [("a", .m [("t", .s "x")]), ("*", .m [("w", .s "y")])]) "b"
        = .ok (some [("w", .s "y")])) :=
  ⟨c6_suboption_resolution.1 [("a", .m [("t", .s "x")]), ("*", .m [("w", .s "y")])] "a"
      [("t", .s "x")] (by simp [lookupKey]),
   c6_suboption_resolution.2.1 [("a", .m [("t", .s "x")]), ("*", .m [("w", .s "y")])] "b"
      [("w", .s "y")] (by simp [lookupKey]) (by simp [lookupKey])⟩

/-- Counterexample to C5: the struct `NullFoo { Foo string; Valid int }` does
not have a bool field named `Valid`, so by the claim the unwrap step should
be a no-op and normal struct transformation should proceed without error; the
source instead runs `isNotNil.Interface().(bool)` on the `int` value
(responders.go line 130), a runtime panic that aborts the transformation. -/
theorem c5_counterexample :
    createStructResponse "NullFoo" nullFooFields none none ""
      = .error "interface conversion: interface is not bool" := by
  simp +decide [createStructResponse, createNullableDbResponse, findField,
    nullFooFields, SqlNullablePrefix]

/-- C5 (amended): for a struct whose type name carries the `Null` marker and
which has a field named by stripping the marker plus a `Valid` field that is
a `bool`: `Valid = false` transforms to the explicit nil value regardless of
the value field's content, and `Valid = true` yields the value field's raw
content (no further transformation of it).  When the type name lacks the
marker or either field is missing, the unwrap is a no-op (`noMatch`) and the
struct falls through to the normal field-loop mapping.  (A marker-matching
struct whose `Valid` field exists but is not a `bool` panics instead, as the
counterexample shows.) -/
theorem c5_nullable_unwrap :
    (∀ (tname : String) (fields : List (FieldF GoVal)) (options : Options)
        (constructor : Option Constructor) (domain : String)
        (val valid : FieldF GoVal),
        goHasPrefix tname SqlNullablePrefix = true →
        findField fields (goDropLen tname SqlNullablePrefix) = some val →
        findField fields "Valid" = some valid →
        (valid.value.shape = .boolv false →
          createStructResponse tname fields options constructor domain = .ok goNil)
        ∧ (valid.value.shape = .boolv true →
          createStructResponse tname fields options constructor domain = .ok val.value))
    ∧ (∀ (tname : String) (fields : List (FieldF GoVal)),
        (goHasPrefix tname SqlNullablePrefix = false
          ∨ findField fields (goDropLen tname SqlNullablePrefix) = none
          ∨ findField fields "Valid" = none) →
        createNullableDbResponse tname fields = .noMatch)
    ∧ (∀ (tname : String) (fields : List (FieldF GoVal)) (options : Options)
        (constructor : Option Constructor) (domain : String),
        createNullableDbResponse tname fields = .noMatch →
        createStructResponse tname fields options constructor domain
          = (goFields fields [] options constructor domain).bind
              (fun response => .ok (GoVal.mk noCaps (.mapv true response)))) := by
  refine ⟨?_, ?_, ?_⟩
  · intro tname fields options constructor domain val valid hp hv hva
    constructor
    · intro hb
      simp [createStructResponse, createNullableDbResponse, hp, hv, hva, hb]
    · intro hb
      simp [createStructResponse, createNullableDbResponse, hp, hv, hva, hb]
  · intro tname fields h
    rcases h with h | h | h
    · simp [createNullableDbResponse, h]
    · simp [createNullableDbResponse, h]
    · cases hf : findField fields (goDropLen tname SqlNullablePrefix) with
      | none => simp [createNullableDbResponse, hf]
      | some val => simp [createNullableDbResponse, hf, h]
  · intro tname fields options constructor domain h
    simp [createStructResponse, h]
    cases goFields fields [] options constructor domain with
    | ok r => simp [Except.bind]
    | error e => simp [Except.bind]

/-- Witness for C5 (amended) at concrete inputs shaped like
`database/sql.NullInt64`: `Valid = true` unwraps to the wrapped value,
`Valid = false` unwraps to nil, and the non-matching type name `Plain` makes
the unwrap a no-op. -/
theorem c5_witness :
    createStructResponse "NullInt64"
        [⟨"Int64", false, "", "", GoVal.mk noCaps (.intv 5)⟩,
         ⟨"Valid", false, "", "", GoVal.mk noCaps (.boolv true)⟩] none none ""
      = .ok (GoVal.mk noCaps (.intv 5))
    ∧ createStructResponse "NullInt64"
        [⟨"Int64", false, "", "", GoVal.mk noCaps (.intv 5)⟩,
         ⟨"Valid", false, "", "", GoVal.mk noCaps (.boolv false)⟩] none none ""
      = .ok goNil
    ∧ createNullableDbResponse "Plain"
        [⟨"Valid", false, "", "", GoVal.mk noCaps (.boolv true)⟩] = .noMatch := by
  refine ⟨?_, ?_, ?_⟩
  · exact (c5_nullable_unwrap.1 "NullInt64"
      [⟨"Int64", false, "", "", GoVal.mk noCaps (.intv 5)⟩,
       ⟨"Valid", false, "", "", GoVal.mk noCaps (.boolv true)⟩] none none ""
      ⟨"Int64", false, "", "", GoVal.mk noCaps (.intv 5)⟩
      ⟨"Valid", false, "", "", GoVal.mk noCaps (.boolv true)⟩
      (by decide) (by simp +decide [findField]) (by simp +decide [findField])).2 rfl
  · exact (c5_nullable_unwrap.1 "NullInt64"
      [⟨"Int64", false, "", "", GoVal.mk noCaps (.intv 5)⟩,
       ⟨"Valid", false, "", "", GoVal.mk noCaps (.boolv false)⟩] none none ""
      ⟨"Int64", false, "", "", GoVal.mk noCaps (.intv 5)⟩
      ⟨"Valid", false, "", "", GoVal.mk noCaps (.boolv false)⟩
      (by decide) (by simp +decide [findField]) (by simp +decide [findField])).1 rfl
  · exact c5_nullable_unwrap.2.1 "Plain"
      [⟨"Valid", false, "", "", GoVal.mk noCaps (.boolv true)⟩]
      (Or.inl (by decide))

/-- C4: in the struct field loop, when exactly one non-embedded field writes
the response key `key` (any number of embedded fields may also contribute
`key`), the output mapping's entry at `key` is that direct field's
transformed value, regardless of where the direct and embedded fields sit in
declaration order; moreover the embedded-field merge never overwrites a key
already present in the response being built; and on a non-nullable struct the
field loop's result is exactly what `createStructResponse` wraps up. -/
theorem c4_embedding_precedence :
    (∀ (fields : List (FieldF GoVal)) (options : Options)
        (constructor : Option Constructor) (domain : String) (key : String)
        (f : FieldF GoVal) (res : OMapG),
      key ≠ "-" →
      fields.filter (fun g => writesKey g key) = [f] →
      goFields fields [] options constructor domain = .ok res →
      ∃ so rv, structFieldOptions options key = .ok so
        ∧ createResponseValue f.value so constructor domain = .ok rv
        ∧ lookupKey res key = some rv)
    ∧ (∀ (response embedded : OMapG) (key : String) (w : GoVal),
        lookupKey response key = some w →
        lookupKey (mergeNoOverwrite response embedded) key = some w)
    ∧ (∀ (tname : String) (fields : List (FieldF GoVal)) (options : Options)
        (constructor : Option Constructor) (domain : String),
        createNullableDbResponse tname fields = .noMatch →
        createStructResponse tname fields options constructor domain
          = (goFields fields [] options constructor domain).bind
              (fun response => .ok (GoVal.mk noCaps (.mapv true response)))) := by
  refine ⟨?_, ?_, ?_⟩
  · intro fields options constructor domain key f res hk hfil hok
    exact goFields_unique_write fields [] options constructor domain key f res hk hfil hok
  · intro response embedded key w h
    exact lookupKey_mergeNoOverwrite embedded response key w h
  · intro tname fields options constructor domain h
    simp only [createStructResponse, h]
    cases goFields fields [] options constructor domain with
    | ok r => simp [Except.bind]
    | error e => simp [Except.bind]

/-- Witness for C4 at a concrete input with the embedded field declared
BEFORE the direct field (the harder order): the struct with embedded field
`E` (whose transformation contributes `x = "w"`) followed by direct field `X`
(contributing `x = "v"`) produces `x = "v"`. -/
theorem c4_witness :
    ∃ so rv, structFieldOptions none "x" = .ok so
      ∧ createResponseValue (plainStr "v") so none "" = .ok rv
      ∧ lookupKey [("x", plainStr "v")] "x" = some rv := by
  apply c4_embedding_precedence.1 [c4Embedded, c4Direct] none none "" "x" c4Direct
      [("x", plainStr "v")] (by decide)
  · have h1 : writesKey c4Embedded "x" = false := by decide
    have h2 : writesKey c4Direct "x" = true := by decide
    simp [List.filter_cons, h1, h2]
  · simp +decide [goFields, CreateResponse, createResponse, createStructResponse,
      createNullableDbResponse, goHasPrefix, goDropLen, findField,
      SqlNullablePrefix, createResponseValue, structFieldOptions, optionsTypeStr,
      lookupKey, hasKey, setKey, mergeNoOverwrite, ResponseTag, isExportedName,
      goToLower, lazyLoadStep, responseObjectStep, derefStep, noCaps, plainStr,
      c4Embedded, c4Direct]

/-- Counterexample to C1: the slice `["x"]` is the top-level response value,
a constructor callback is supplied (one that returns the marker string
`WRAPPED`), and a non-nil options map is supplied; by the claim the callback
should be invoked, making the response `WRAPPED`, but `CreateResponse`
returns the raw transformed sequence (responders.go lines 84-88 guard the
callback with `isSubResponse`, which is false at the top level). -/
theorem c1_counterexample :
    CreateResponse (GoVal.mk noCaps (.slice [plainStr "x"])) (some [])
        (some (fun _ _ => plainStr "WRAPPED")) ""
      = .ok (GoVal.mk noCaps (.slice [plainStr "x"]))
      ∧ GoVal.mk noCaps (.slice [plainStr "x"]) ≠ plainStr "WRAPPED" := by
  constructor
  · simp +decide [CreateResponse, createResponse, createSliceResponse,
      createResponseValue, optionsTypeStr, lookupKey, lazyLoadStep,
      responseObjectStep, derefStep, noCaps, plainStr]
  · intro h
    rw [plainStr] at h
    injection h with hc hs
    exact ShapeF.noConfusion hs

/-- C1 (amended): for a sequence-shaped value (without load or substitution
capabilities) with a constructor callback supplied, the callback is invoked
with the raw transformed sequence and the original value exactly when the
sequence is a nested element (`isSubResponse = true`) AND the options map is
non-nil; in the other three quadrants — top-level with non-nil options,
nested with nil options, top-level with nil options — the callback is not
invoked and the raw transformed sequence is returned. -/
theorem c1_constructor_on_nested (c0 : CapsF GoVal) (elems : List GoVal)
    (hl : c0.lazyLoad = none) (hr : c0.respObject = none)
    (m : OMap) (c : Constructor) (domain : String) (rs rs0 : List GoVal)
    (hs : createSliceResponse elems (some m) (some c) domain = .ok rs)
    (hs0 : createSliceResponse elems none (some c) domain = .ok rs0) :
    createResponse (GoVal.mk c0 (.slice elems)) true (some m) (some c) domain
        = .ok (c (GoVal.mk noCaps (.slice rs)) (GoVal.mk c0 (.slice elems)))
      ∧ createResponse (GoVal.mk c0 (.slice elems)) false (some m) (some c) domain
        = .ok (GoVal.mk noCaps (.slice rs))
      ∧ createResponse (GoVal.mk c0 (.slice elems)) true none (some c) domain
        = .ok (GoVal.mk noCaps (.slice rs0))
      ∧ createResponse (GoVal.mk c0 (.slice elems)) false none (some c) domain
        = .ok (GoVal.mk noCaps (.slice rs0)) := by
  cases c0 with
  | mk l ro rv st em nr =>
    simp only [CapsF.lazyLoad] at hl
    simp only [CapsF.respObject] at hr
    subst hl
    subst hr
    refine ⟨?_, ?_, ?_, ?_⟩
    · simp [createResponse, lazyLoadStep, responseObjectStep, derefStep, hs]
    · simp [createResponse, lazyLoadStep, responseObjectStep, derefStep, hs]
    · simp [createResponse, lazyLoadStep, responseObjectStep, derefStep, hs0]
    · simp [createResponse, lazyLoadStep, responseObjectStep, derefStep, hs0]

/-- Witness for C1 (amended) at a concrete input, covering all four
quadrants: the nested transformation of `["x"]` under a non-nil options map
is handed to the constructor together with the original slice, while the
top-level transformation under the same options, and both the nested and the
top-level transformations under a nil options map, are not. -/
theorem c1_witness :
    createResponse (GoVal.mk noCaps (.slice [plainStr "x"])) true (some [])
        (some (fun a b => GoVal.mk noCaps (.mapv false [("response", a), ("orig", b)])))
        ""
      = .ok (GoVal.mk noCaps (.mapv false
          [("response", GoVal.mk noCaps (.slice [plainStr "x"])),
           ("orig", GoVal.mk noCaps (.slice [plainStr "x"]))]))
      ∧ createResponse (GoVal.mk noCaps (.slice [plainStr "x"])) false (some [])
        (some (fun a b => GoVal.mk noCaps (.mapv false [("response", a), ("orig", b)])))
        ""
      = .ok (GoVal.mk noCaps (.slice [plainStr "x"]))
      ∧ createResponse (GoVal.mk noCaps (.slice [plainStr "x"])) true none
        (some (fun a b => GoVal.mk noCaps (.mapv false [("response", a), ("orig", b)])))
        ""
      = .ok (GoVal.mk noCaps (.slice [plainStr "x"]))
      ∧ createResponse (GoVal.mk noCaps (.slice [plainStr "x"])) false none
        (some (fun a b => GoVal.mk noCaps (.mapv false [("response", a), ("orig", b)])))
        ""
      = .ok (GoVal.mk noCaps (.slice [plainStr "x"])) := by
  have h := c1_constructor_on_nested noCaps [plainStr "x"] rfl rfl []
    (fun a b => GoVal.mk noCaps (.mapv false [("response", a), ("orig", b)])) ""
    [plainStr "x"] [plainStr "x"]
    (by simp +decide [createSliceResponse, createResponseValue, createResponse,
      optionsTypeStr, lookupKey, lazyLoadStep, responseObjectStep, derefStep,
      noCaps, plainStr])
    (by simp +decide [createSliceResponse, createResponseValue, createResponse,
      optionsTypeStr, lookupKey, lazyLoadStep, responseObjectStep, derefStep,
      noCaps, plainStr])
  exact ⟨h.1, h.2.1, h.2.2.1, h.2.2.2⟩

/-- C3: for a nested element that is not a nil pointer, when the sub-options
do not carry the `full` marker, a type implementing both the custom-element
capability (`ResponseValueCreator`) and `fmt.Stringer` resolves through the
custom-element capability (its result is what gets transformed further),
never through `String()`; and when the sub-options carry `type = "full"`, the
custom-element, Stringer, and error capabilities are all bypassed and the
generic shape dispatch `createResponse` is applied to the element itself. -/
theorem c3_capability_priority (value : GoVal) (options : Options)
    (constructor : Option Constructor) (domain : String)
    (hnp : value.shape ≠ ShapeF.nilPtr) :
    (∀ (rv : GoVal) (s : String),
      value.caps.respValue = some rv → value.caps.stringer = some s →
      optionsTypeStr options ≠ "full" →
      createResponseValue value options constructor domain
        = createResponse rv true options constructor domain)
    ∧ (optionsTypeStr options = "full" →
      createResponseValue value options constructor domain
        = createResponse value true options constructor domain) := by
  constructor
  · intro rv s hrv hst hfull
    cases value with
    | mk c sh =>
      cases c with
      | mk l ro rvf st em nr =>
        simp only [caps_mk, CapsF.respValue] at hrv
        simp only [caps_mk, CapsF.stringer] at hst
        subst hrv
        subst hst
        cases sh <;> simp_all [createResponseValue]
  · intro hfull
    cases value with
    | mk c sh =>
      cases sh <;> simp_all [createResponseValue]

/-- Witness for C3 at a concrete input: a value implementing both
`ResponseValueCreator` (returning `custom`) and `fmt.Stringer` (returning
`stringy`) resolves to `custom` without the `full` marker, and bypasses both
capabilities (transforming to itself, an integer scalar) under
`type = "full"`. -/
theorem c3_witness :
    createResponseValue dualCapVal none none "" = .ok (plainStr "custom")
      ∧ createResponseValue dualCapVal (some [("type", .s "full")]) none ""
        = .ok dualCapVal := by
  constructor
  · have h := (c3_capability_priority dualCapVal none none ""
      (by simp [dualCapVal])).1 (plainStr "custom") "stringy" rfl rfl (by decide)
    rw [h]
    simp [createResponse, lazyLoadStep, responseObjectStep, derefStep, plainStr, noCaps]
  · have h := (c3_capability_priority dualCapVal (some [("type", .s "full")]) none ""
      (by simp [dualCapVal])).2 (by decide)
    rw [h]
    simp [createResponse, lazyLoadStep, responseObjectStep, derefStep, dualCapVal]

theorem capsNone_fields (c : CapsF GoVal) (h : capsNone c = true) :
    c.lazyLoad = none ∧ c.respObject = none ∧ c.respValue = none
      ∧ c.stringer = none ∧ c.errMsg = none ∧ c.nilResponse = none := by
  cases c with
  | mk l ro rv st em nr =>
    simp only [capsNone, Bool.and_eq_true, Option.isNone_iff_eq_none] at h
    obtain ⟨⟨⟨⟨⟨h1, h2⟩, h3⟩, h4⟩, h5⟩, h6⟩ := h
    exact ⟨h1, h2, h3, h4, h5, h6⟩

theorem idem_aux (n : Nat) :
    (∀ g, sizeOf g ≤ n → isPlainTree g = true →
      ∀ (isSub : Bool) (cons : Option Constructor),
        createResponse g isSub none cons "" = .ok g)
    ∧ (∀ es, sizeOf es ≤ n → isPlainList es = true →
      ∀ cons : Option Constructor, createSliceResponse es none cons "" = .ok es)
    ∧ (∀ entries, sizeOf entries ≤ n → isPlainEntries entries = true →
      ∀ cons : Option Constructor, goEntries entries none cons "" = .ok entries)
    ∧ (∀ g, sizeOf g ≤ n → isPlainTree g = true →
      ∀ cons : Option Constructor, createResponseValue g none cons "" = .ok g) := by
  induction n using Nat.strong_induction_on with
  | _ n ih =>
    have part1 : ∀ g, sizeOf g ≤ n → isPlainTree g = true →
        ∀ (isSub : Bool) (cons : Option Constructor),
          createResponse g isSub none cons "" = .ok g := by
      intro g hsz hp isSub cons
      cases g with
      | mk c s =>
        cases c with
        | mk l ro rvf st em nr =>
          rw [isPlainTree] at hp
          simp only [capsNone, Bool.and_eq_true, Option.isNone_iff_eq_none,
            CapsF.lazyLoad, CapsF.respObject, CapsF.respValue, CapsF.stringer,
            CapsF.errMsg, CapsF.nilResponse] at hp
          obtain ⟨⟨⟨⟨⟨⟨h1, h2⟩, h3⟩, h4⟩, h5⟩, h6⟩, hs⟩ := hp
          subst h1
          subst h2
          subst h3
          subst h4
          subst h5
          subst h6
          cases s with
          | nilv =>
            simp [createResponse, lazyLoadStep, responseObjectStep, derefStep]
          | str a =>
            simp [createResponse, lazyLoadStep, responseObjectStep, derefStep]
          | intv a =>
            simp [createResponse, lazyLoadStep, responseObjectStep, derefStep]
          | boolv a =>
            simp [createResponse, lazyLoadStep, responseObjectStep, derefStep]
          | nilPtr => rw [isPlainShape] at hs; exact Bool.noConfusion hs
          | ptr e => rw [isPlainShape] at hs; exact Bool.noConfusion hs
          | structv tn fs => rw [isPlainShape] at hs; exact Bool.noConfusion hs
          | slice elems =>
            rw [isPlainShape] at hs
            have hlt : sizeOf elems < n := by
              simp at hsz
              omega
            have h2' := (ih (sizeOf elems) hlt).2.1 elems le_rfl hs cons
            simp [createResponse, lazyLoadStep, responseObjectStep, derefStep,
              h2', noCaps]
          | mapv io entries =>
            rw [isPlainShape] at hs
            have hlt : sizeOf entries < n := by
              simp at hsz
              omega
            have h3' := (ih (sizeOf entries) hlt).2.2.1 entries le_rfl hs cons
            simp [createResponse, createMapResponse, lazyLoadStep,
              responseObjectStep, derefStep, h3', noCaps]
    have part4 : ∀ g, sizeOf g ≤ n → isPlainTree g = true →
        ∀ cons : Option Constructor, createResponseValue g none cons "" = .ok g := by
      intro g hsz hp cons
      have hcr := part1 g hsz hp true cons
      cases g with
      | mk c s =>
        cases c with
        | mk l ro rvf st em nr =>
          rw [isPlainTree] at hp
          simp only [capsNone, Bool.and_eq_true, Option.isNone_iff_eq_none,
            CapsF.lazyLoad, CapsF.respObject, CapsF.respValue, CapsF.stringer,
            CapsF.errMsg, CapsF.nilResponse] at hp
          obtain ⟨⟨⟨⟨⟨⟨h1, h2⟩, h3⟩, h4⟩, h5⟩, h6⟩, hs⟩ := hp
          subst h1
          subst h2
          subst h3
          subst h4
          subst h5
          subst h6
          cases s with
          | nilPtr => rw [isPlainShape] at hs; exact Bool.noConfusion hs
          | ptr e => rw [isPlainShape] at hs; exact Bool.noConfusion hs
          | structv tn fs => rw [isPlainShape] at hs; exact Bool.noConfusion hs
          | nilv => simp [createResponseValue, optionsTypeStr, hcr]
          | str a => simp [createResponseValue, optionsTypeStr, hcr]
          | intv a => simp [createResponseValue, optionsTypeStr, hcr]
          | boolv a => simp [createResponseValue, optionsTypeStr, hcr]
          | slice elems => simp [createResponseValue, optionsTypeStr, hcr]
          | mapv io entries => simp [createResponseValue, optionsTypeStr, hcr]
    have part2 : ∀ es, sizeOf es ≤ n → isPlainList es = true →
        ∀ cons : Option Constructor, createSliceResponse es none cons "" = .ok es := by
      intro es hsz hp cons
      induction es with
      | nil => simp [createSliceResponse]
      | cons e rest ihes =>
        rw [isPlainList] at hp
        simp only [Bool.and_eq_true] at hp
        obtain ⟨hpe, hpr⟩ := hp
        have hsze : sizeOf e ≤ n := by simp at hsz; omega
        have hszr : sizeOf rest ≤ n := by simp at hsz; omega
        have he := part4 e hsze hpe cons
        have hr := ihes hszr hpr
        simp [createSliceResponse, he, hr]
    have part3 : ∀ entries, sizeOf entries ≤ n → isPlainEntries entries = true →
        ∀ cons : Option Constructor, goEntries entries none cons "" = .ok entries := by
      intro entries hsz hp cons
      induction entries with
      | nil => simp [goEntries]
      | cons kv rest ihes =>
        cases kv with
        | mk k v =>
          rw [isPlainEntries] at hp
          simp only [Bool.and_eq_true] at hp
          obtain ⟨hpe, hpr⟩ := hp
          have hsze : sizeOf v ≤ n := by simp at hsz; omega
          have hszr : sizeOf rest ≤ n := by simp at hsz; omega
          have he := part4 v hsze hpe cons
          have hr := ihes hszr hpr
          simp [goEntries, mapElementOptions, he, hr]
    exact ⟨part1, part2, part3, part4⟩

/-- Counterexample to C7: with domain `//h` (and nil options), the tree
`"//h/x"` is itself produced by `CreateResponse` from `"/x"`, is built only
of scalars with no capabilities, yet re-transforming it with the same
arguments prefixes the domain again and yields a different tree. -/
theorem c7_counterexample :
    CreateResponse (plainStr "/x") none none "//h" = .ok (plainStr "//h/x")
      ∧ isPlainTree (plainStr "//h/x") = true
      ∧ CreateResponse (plainStr "//h/x") none none "//h" = .ok (plainStr "//h//h/x")
      ∧ plainStr "//h//h/x" ≠ plainStr "//h/x" := by
  refine ⟨?_, ?_, ?_, ?_⟩
  · simp +decide [CreateResponse, createResponse, lazyLoadStep,
      responseObjectStep, derefStep, plainStr, noCaps]
  · simp [isPlainTree, isPlainShape, capsNone, plainStr, noCaps]
  · simp +decide [CreateResponse, createResponse, lazyLoadStep,
      responseObjectStep, derefStep, plainStr, noCaps]
  · intro h
    rw [plainStr, plainStr] at h
    injection h with hc hs
    injection hs with h1
    exact absurd h1 (by decide)

/-- C7 (amended): for a response tree built only of string-keyed mappings,
sequences and scalars implementing no capability interfaces, re-applying
`CreateResponse` with a nil options map and an empty domain yields the same
tree (the transformer performs no capability lookups on its own output
structure); the restriction to an empty domain and nil options is forced by
the counterexample (domain prefixing applies again to slash-initial strings,
and a non-nil options map re-wraps nested sequences through the constructor). -/
theorem c7_idempotent_retransformation (g : GoVal) (h : isPlainTree g = true)
    (cons : Option Constructor) :
    CreateResponse g none cons "" = .ok g := by
  have he : g.caps.errMsg = none := by
    cases g with
    | mk c s =>
      rw [isPlainTree] at h
      simp only [Bool.and_eq_true] at h
      exact (capsNone_fields c h.1).2.2.2.2.1
  simp only [CreateResponse, he]
  exact (idem_aux (sizeOf g)).1 g le_rfl h false cons

/-- Witness for C7 at a concrete already-transformed tree: a mapping holding
a sequence of scalars re-transforms to itself. -/
theorem c7_witness : CreateResponse plainTreeSample none none "" = .ok plainTreeSample :=
  c7_idempotent_retransformation plainTreeSample
    (by simp [plainTreeSample, isPlainTree, isPlainShape, isPlainList,
      isPlainEntries, capsNone, plainStr, noCaps]) none

end WebResponders
